import Mathlib

/-!
Verification development for the MyClude text-reading engine
(`src/App.tsx`): the visual paginator, the incremental pagination job,
the byte-window recenter logic, and the progress reconciler.

Text is modelled as `List Char`.  The JavaScript float constants `0.95`
and `1.62` in the paginator are modelled as the exact rationals `19/20`
and `81/50`; for the integer font sizes the application uses, the
derived integer constants agree with the float computation.
-/

namespace MyClude

/-- Model of `input.replace(/\r\n/g, "\n")` (App.tsx:118, 408):
left-to-right, non-overlapping replacement of CRLF by LF. -/
def normalizeNewlines : List Char → List Char
  | '\r' :: '\n' :: rest => '\n' :: normalizeNewlines rest
  | c :: rest => c :: normalizeNewlines rest
  | [] => []

/-- Model of `String.prototype.split("\n")`: split a character list at
every newline; always returns at least one (possibly empty) line. -/
def splitOnNl : List Char → List (List Char)
  | [] => [[]]
  | c :: rest =>
    if c = '\n' then [] :: splitOnNl rest
    else
      match splitOnNl rest with
      | [] => [[c]]
      | l :: ls => (c :: l) :: ls

/-- Join lines back with a newline character between consecutive lines
(model of joining the pages' `.text` with `"\n"`). -/
def joinNl : List (List Char) → List Char
  | [] => []
  | [l] => l
  | l :: ls => l ++ '\n' :: joinNl ls

/-- `charsPerLine` from App.tsx:121 / 411:
`Math.max(14, Math.floor(980 / (fontSize * 0.95)))`,
with `980 / (fs * 19/20) = 19600 / (19 * fs)`. -/
def charsPerLine (fontSize : ℕ) : ℕ := max 14 (19600 / (19 * fontSize))

/-- `maxVisualLines` from App.tsx:122 / 412:
`Math.max(6, Math.floor(1120 / (fontSize * 1.62)) - 1)`,
with `1120 / (fs * 81/50) = 56000 / (81 * fs)`. -/
def maxVisualLines (fontSize : ℕ) : ℕ := max 6 (56000 / (81 * fontSize) - 1)

/-- `visualLineCount` from App.tsx:128-131 / 420-423: empty line counts
as one visual line, otherwise `max(1, ceil(len / charsPerLine))`. -/
def visualLineCount (cpl : ℕ) (t : List Char) : ℕ :=
  if t = [] then 1 else max 1 ((t.length + cpl - 1) / cpl)

/-- A paginated page (`TextPage` in the source). -/
structure Page where
  text : List Char
  startLine : ℕ
  endLine : ℕ
deriving DecidableEq, Repr

/-- Loop state of the pagination accumulation (both the synchronous
`paginateText` loop at App.tsx:133-150 and the incremental `step` at
App.tsx:443-472 use exactly these variables). -/
structure PgState where
  cursor : ℕ
  current : List Char
  currentVisualLines : ℕ
  pageStartLine : ℕ
  pages : List Page
deriving DecidableEq, Repr

def initPgState : PgState := ⟨0, [], 0, 0, []⟩

/-- One iteration of the pagination loop body (App.tsx:133-150,
identically App.tsx:446-463): close the page when adding the line
would exceed the budget and the accumulated text is nonempty
(`current` truthy), else append the line. -/
def pgLine (cpl maxVL : ℕ) (s : PgState) (line : List Char) : PgState :=
  let lineVisualLines := visualLineCount cpl line
  let nextVisualLines := s.currentVisualLines + lineVisualLines
  if maxVL < nextVisualLines ∧ s.current ≠ [] then
    { cursor := s.cursor + 1
      current := line
      currentVisualLines := lineVisualLines
      pageStartLine := s.cursor
      pages := s.pages ++ [⟨s.current, s.pageStartLine, max s.pageStartLine (s.cursor - 1)⟩] }
  else
    { cursor := s.cursor + 1
      current := if s.current = [] then line else s.current ++ '\n' :: line
      currentVisualLines := nextVisualLines
      pageStartLine := s.pageStartLine
      pages := s.pages }

/-- Run the pagination loop over a list of lines. -/
def procLines (cpl maxVL : ℕ) (s : PgState) (ls : List (List Char)) : PgState :=
  ls.foldl (pgLine cpl maxVL) s

/-- Final flush (App.tsx:151-160, identically `finalize` at
App.tsx:431-441): push the remaining accumulated text if nonempty, and
fall back to a single empty page when no page was produced. -/
def flushPages (total : ℕ) (s : PgState) : List Page :=
  let ps :=
    if s.current ≠ [] then
      s.pages ++ [⟨s.current, s.pageStartLine, max s.pageStartLine (total - 1)⟩]
    else s.pages
  if ps = [] then [⟨[], 0, 0⟩] else ps

/-- `paginateText` (App.tsx:117-161). -/
def paginateText (input : List Char) (fontSize : ℕ) : List Page :=
  let lines := splitOnNl (normalizeNewlines input)
  flushPages lines.length
    (procLines (charsPerLine fontSize) (maxVisualLines fontSize) initPgState lines)

/-- Sum of visual-line estimates of a list of lines. -/
def visualEstimate (cpl : ℕ) (ls : List (List Char)) : ℕ :=
  (ls.map (visualLineCount cpl)).sum

/-- The source lines a page spans, `lines[startLine..endLine]`. -/
def pageSourceLines (lines : List (List Char)) (p : Page) : List (List Char) :=
  (lines.drop p.startLine).take (p.endLine + 1 - p.startLine)

/-- Number of nonempty lines in a list of lines. -/
def nonemptyLineCount (ls : List (List Char)) : ℕ :=
  (ls.filter (fun l => !l.isEmpty)).length

/-- Invariant of the pagination loop relating the state to the prefix
of lines already consumed: the cursor counts the consumed lines, the
running visual-line counter is the estimate of the current page's
source segment, the accumulator is empty exactly when that segment has
no nonempty line, the counter respects the budget once two nonempty
lines are in, and every emitted page with at least two nonempty source
lines respects the budget. -/
def PgInv (cpl maxVL : ℕ) (done : List (List Char)) (s : PgState) : Prop :=
  s.cursor = done.length ∧
  s.pageStartLine ≤ done.length ∧
  s.currentVisualLines = visualEstimate cpl (done.drop s.pageStartLine) ∧
  (s.current = [] ↔ nonemptyLineCount (done.drop s.pageStartLine) = 0) ∧
  (2 ≤ nonemptyLineCount (done.drop s.pageStartLine) → s.currentVisualLines ≤ maxVL) ∧
  (∀ p ∈ s.pages, p.startLine ≤ p.endLine ∧ p.endLine + 1 ≤ done.length ∧
    (2 ≤ nonemptyLineCount (pageSourceLines done p) →
      visualEstimate cpl (pageSourceLines done p) ≤ maxVL))

/-- An in-flight incremental pagination job (the `step` closure of the
effect at App.tsx:403-478): its captured job id, the lines not yet
consumed, the captured totals/constants, the loop state, and the
`processedSincePublish` counter. -/
structure PagJob where
  id : ℕ
  rest : List (List Char)
  total : ℕ
  cpl : ℕ
  maxVL : ℕ
  st : PgState
  processedSincePublish : ℕ
deriving DecidableEq, Repr

/-- Shared state of the pagination effect: `paginateJobRef.current`,
the published `novelPages`, the `paginationDone` flag, and the
scheduled (not yet run) job steps. -/
structure PagWorld where
  ref : ℕ
  pages : List Page
  done : Bool
  jobs : List PagJob
deriving DecidableEq, Repr

/-- Initial state: `useState` defaults of App.tsx:212-213 and
`paginateJobRef = useRef(0)` (App.tsx:239). -/
def initPagWorld : PagWorld := ⟨0, [⟨[], 0, 0⟩], true, []⟩

/-- Start of the pagination effect body (App.tsx:403-418): increment
and capture the job id, clear `paginationDone`, capture lines and
constants, schedule the first step. -/
def startPagJob (w : PagWorld) (input : List Char) (fontSize : ℕ) : PagWorld :=
  let jobId := w.ref + 1
  let lines := splitOnNl (normalizeNewlines input)
  { ref := jobId, pages := w.pages, done := false,
    jobs := w.jobs ++ [⟨jobId, lines, lines.length, charsPerLine fontSize,
      maxVisualLines fontSize, initPgState, 0⟩] }

/-- One scheduled `step` run (App.tsx:443-472): bail out silently when
the captured job id no longer matches `paginateJobRef`; otherwise
consume up to 1200 lines, publish a partial page list when at least
5000 lines accumulated since the last publish, and finalize (publish
final pages, set `paginationDone`) when all lines are consumed. -/
def stepPagJob (w : PagWorld) (n : ℕ) : PagWorld :=
  match w.jobs.get? n with
  | none => w
  | some j =>
    if w.ref ≠ j.id then { w with jobs := w.jobs.eraseIdx n }
    else
      let chunk := j.rest.take 1200
      let st' := procLines j.cpl j.maxVL j.st chunk
      let sp := j.processedSincePublish + chunk.length
      let rest' := j.rest.drop 1200
      if rest' = [] then
        { ref := w.ref, pages := flushPages j.total st', done := true,
          jobs := w.jobs.eraseIdx n }
      else
        { ref := w.ref,
          pages := if 5000 ≤ sp then
              (if st'.pages = [] then [⟨[], 0, 0⟩] else st'.pages)
            else w.pages,
          done := w.done,
          jobs := w.jobs.set n ⟨j.id, rest', j.total, j.cpl, j.maxVL, st',
            if 5000 ≤ sp then 0 else sp⟩ }

/-- Events of the pagination subsystem: starting a new job for a text
and font size, or the scheduler running the `n`-th pending step. -/
inductive PagEvent where
  | start (input : List Char) (fontSize : ℕ)
  | step (n : ℕ)
deriving DecidableEq, Repr

def pagApply (w : PagWorld) (e : PagEvent) : PagWorld :=
  match e with
  | .start input fontSize => startPagJob w input fontSize
  | .step n => stepPagJob w n

def pagRun (w : PagWorld) (evs : List PagEvent) : PagWorld := evs.foldl pagApply w

/-- Clamp a rational to the unit interval, the ubiquitous
`Math.max(0, Math.min(1, x))` of the source. -/
def clamp01 (x : ℚ) : ℚ := max 0 (min 1 x)

/-- `textWindowRef.current` (App.tsx:247-252): the loaded byte window.
The source field `end` is called `stop` here (`end` is a Lean keyword). -/
structure TextWindow where
  start : ℕ
  stop : ℕ
  total : ℕ
  itemKey : List Char
deriving DecidableEq, Repr

/-- The data captured by an issued but unresolved text-chunk fetch
inside `recenterTextWindow`. -/
structure InflightFetch where
  startByte : ℕ
  capturedTotal : ℕ
  itemKey : List Char
  globalProgress : ℚ
deriving DecidableEq, Repr

/-- The session state touched by `recenterTextWindow`
(App.tsx:1183-1220): guards, the single-flight flag
`recenterBusyRef`, the window, the loaded text and the pending-restore
refs, plus an issued-fetch counter for the single-flight property. -/
structure RecenterSession where
  isExternal : Bool
  hasTextItem : Bool
  itemKey : List Char
  busy : Bool
  window : TextWindow
  preview : List Char
  pendingScrollRestore : Option ℚ
  pendingRestoreGlobal : Option ℚ
  viewerRestoring : Bool
  fetchCount : ℕ
  inflight : Option InflightFetch
deriving DecidableEq, Repr

/-- Start-byte computation of `recenterTextWindow` (App.tsx:1191-1194):
`totalBytes = total || 1`, `targetByte = floor(g * totalBytes)`,
`startByte = max(0, min(totalBytes - TEXT_WINDOW_BYTES, targetByte - half))`
with `TEXT_WINDOW_BYTES = 262144` and `half = 131072`. -/
def recenterStartByte (total : ℕ) (g : ℚ) : ℕ :=
  let totalBytes : ℤ := if total = 0 then 1 else total
  let targetByte : ℤ := ⌊g * (totalBytes : ℚ)⌋
  (max 0 (min (totalBytes - 262144) (targetByte - 131072))).toNat

/-- Synchronous prefix of `recenterTextWindow` up to the awaited fetch
(App.tsx:1184-1199): guard on external item / busy flag / valid text
item, set the busy flag, and issue the range fetch. -/
def recenterCall (s : RecenterSession) (g : ℚ) : RecenterSession :=
  if s.isExternal || s.busy then s
  else if !s.hasTextItem then s
  else
    { s with
      busy := true
      fetchCount := s.fetchCount + 1
      inflight := some ⟨recenterStartByte s.window.total g,
        (if s.window.total = 0 then 1 else s.window.total), s.itemKey, g⟩ }

/-- Resumption of `recenterTextWindow` after a successful fetch
(App.tsx:1201-1213, plus the `finally` releasing the busy flag):
store the pending global restore fraction, replace the window and the
loaded text, flag the restore, release the flag. -/
def recenterResolve (s : RecenterSession) (text : List Char) (chunkTotal : ℕ) :
    RecenterSession :=
  match s.inflight with
  | none => s
  | some f =>
    { s with
      pendingScrollRestore := some f.globalProgress
      pendingRestoreGlobal := some f.globalProgress
      window := ⟨f.startByte, f.startByte + text.length,
        (if chunkTotal = 0 then f.capturedTotal else chunkTotal), f.itemKey⟩
      preview := text
      viewerRestoring := true
      busy := false
      inflight := none }

/-- Resumption of `recenterTextWindow` after a failed fetch
(App.tsx:1215-1219): the catch block only logs; the `finally` block
releases the busy flag; nothing else is touched. -/
def recenterReject (s : RecenterSession) : RecenterSession :=
  { s with
    busy := false
    inflight := none }

/-- Global-fraction to window-local-fraction conversion used when
restoring a position after a load (App.tsx:574, 591-596):
`targetByte = max(0, min(total-1, floor(g*(total-1))))`,
`span = max(1, stop - start)`,
`local = clamp01((targetByte - start) / span)`. -/
def translateGlobalToWindowLocal (startByte stopByte total : ℕ) (g : ℚ) : ℚ :=
  let targetByte : ℤ := max 0 (min ((total : ℤ) - 1) ⌊g * ((total : ℚ) - 1)⌋)
  let span : ℚ := max 1 ((stopByte : ℚ) - (startByte : ℚ))
  clamp01 (((targetByte : ℚ) - (startByte : ℚ)) / span)

/-- Window-local to global-fraction conversion of the scroll handler
(App.tsx:1235-1240): `byte = start + local*(stop - start)`,
`global = clamp01(byte / total)`. -/
def translateScrollToGlobal (startByte stopByte total : ℕ) (localFraction : ℚ) : ℚ :=
  clamp01 (((startByte : ℚ) + localFraction * ((stopByte : ℚ) - (startByte : ℚ))) /
    (total : ℚ))

/-- The progress-related session state read and written by
`setTextPageAndSave` (App.tsx:1150-1162, with `saveTextProgress`
App.tsx:1128-1148) and `onNovelScroll` (App.tsx:1221-1261). -/
structure ReaderState where
  externalItem : Bool
  hasTextItem : Bool
  winStart : ℕ
  winStop : ℕ
  winTotal : ℕ
  pagesLen : ℕ
  textPage : ℤ
  scrollAnchorPage : ℤ
  scrollProgress : ℚ
  readerProgress : ℚ
deriving DecidableEq, Repr

/-- `setTextPageAndSave` (App.tsx:1150-1162): clamp the page index,
set the local fraction (1 for single-page docs), and for album text
items run `saveTextProgress`, which clamps and stores the fraction. -/
def setTextPageAndSave (s : ReaderState) (nextPage : ℤ) : ReaderState :=
  let bounded : ℤ := max 0 (min ((s.pagesLen : ℤ) - 1) nextPage)
  let localProgress : ℚ :=
    if 1 < s.pagesLen then (bounded : ℚ) / ((s.pagesLen : ℚ) - 1) else 1
  if s.externalItem then
    { s with
      textPage := bounded
      scrollAnchorPage := bounded
      scrollProgress := localProgress
      readerProgress := localProgress }
  else if s.hasTextItem then
    { s with
      textPage := bounded
      scrollAnchorPage := bounded
      scrollProgress := localProgress
      readerProgress := clamp01 localProgress }
  else
    { s with
      textPage := bounded
      scrollAnchorPage := bounded
      scrollProgress := localProgress }

/-- `onNovelScroll` (App.tsx:1221-1250, without the recenter trigger):
ignore unscrollable containers, compute the local fraction, convert to
a clamped global fraction for windowed documents (raw local fraction
otherwise), and store it together with the derived anchor page. -/
def onNovelScroll (s : ReaderState) (scrollTop scrollHeight clientHeight : ℚ) :
    ReaderState :=
  let m := scrollHeight - clientHeight
  if m ≤ 0 then s
  else
    let localProgress := scrollTop / m
    let globalProgress :=
      if s.externalItem = false ∧ 0 < s.winTotal then
        clamp01 (((s.winStart : ℚ) + localProgress * ((s.winStop : ℚ) - (s.winStart : ℚ))) /
          (s.winTotal : ℚ))
      else localProgress
    let page : ℤ :=
      if 1 < s.pagesLen then round (globalProgress * ((s.pagesLen : ℚ) - 1)) else 0
    { s with
      scrollProgress := globalProgress
      readerProgress := globalProgress
      scrollAnchorPage := page
      textPage := page }

/-- User interactions driving the progress reconciler. -/
inductive ReaderEvent where
  | pageChange (nextPage : ℤ)
  | scroll (scrollTop scrollHeight clientHeight : ℚ)
deriving DecidableEq, Repr

def readerStep (s : ReaderState) (e : ReaderEvent) : ReaderState :=
  match e with
  | .pageChange n => setTextPageAndSave s n
  | .scroll t h c => onNovelScroll s t h c

def readerRun (s : ReaderState) (evs : List ReaderEvent) : ReaderState :=
  evs.foldl readerStep s

/-- A scroll event whose `scrollTop` lies inside the scrollable range
(or hits the unscrollable early-return). -/
def scrollEventInRange (e : ReaderEvent) : Prop :=
  match e with
  | .pageChange _ => True
  | .scroll t h c => h - c ≤ 0 ∨ (0 ≤ t ∧ t ≤ h - c)

/-- The two reader presentation modes (`readerMode` state,
App.tsx:218). -/
inductive NovelViewMode where
  | paged
  | scroll
deriving DecidableEq, Repr

/-- The reader-mode related state: the mode and whether the novel
viewer is open (`novelMode`). -/
structure SessionModeState where
  readerMode : NovelViewMode
  novelMode : Bool
deriving DecidableEq, Repr

/-- `useState` defaults: `readerMode = "paged"`, viewer closed
(App.tsx:214, 218). -/
def initSessionMode : SessionModeState := ⟨.paged, false⟩

/-- The persisted-preference application in `loadMe`
(App.tsx:769-771): a valid stored `novelViewMode` is applied, anything
else is ignored. -/
def applyPersistedViewMode (s : SessionModeState) (pref : Option NovelViewMode) :
    SessionModeState :=
  match pref with
  | some m => { s with readerMode := m }
  | none => s

/-- Opening a text in the novel viewer sets `novelMode` true. -/
def openNovelViewer (s : SessionModeState) : SessionModeState := { s with novelMode := true }

/-- The effect at App.tsx:1825-1828: whenever `novelMode` is true it
forces `readerMode` to scroll. It does not inspect whether the opened
item is external or a stored album item. -/
def novelModeEntryEffect (s : SessionModeState) : SessionModeState :=
  if s.novelMode then { s with readerMode := .scroll } else s

/-- Mode in effect when a viewer session starts: persisted preference
applied at session start, then the viewer opens, then the
`novelMode` effect runs.  The `isExternal` flag of the opened item is
listed as an argument to state the claim, but the source effect never
reads it. -/
def sessionEntryMode (pref : Option NovelViewMode) (_isExternal : Bool) : NovelViewMode :=
  (novelModeEntryEffect (openNovelViewer (applyPersistedViewMode initSessionMode pref))).readerMode

/-! Basic facts about `splitOnNl` and `joinNl`. -/

theorem splitOnNl_ne_nil (t : List Char) : splitOnNl t ≠ [] := by
  cases t with
  | nil => simp [splitOnNl]
  | cons c rest =>
    simp only [splitOnNl]
    by_cases hc : c = '\n'
    · simp [hc]
    · simp only [hc, if_false]
      cases splitOnNl rest <;> simp

theorem joinNl_cons (l : List Char) (ls : List (List Char)) (h : ls ≠ []) :
    joinNl (l :: ls) = l ++ '\n' :: joinNl ls := by
  cases ls with
  | nil => exact absurd rfl h
  | cons a as => rfl

theorem joinNl_splitOnNl (t : List Char) : joinNl (splitOnNl t) = t := by
  induction t with
  | nil => rfl
  | cons c rest ih =>
    by_cases hc : c = '\n'
    · subst hc
      have h1 : splitOnNl ('\n' :: rest) = [] :: splitOnNl rest := by
        simp [splitOnNl]
      rw [h1, joinNl_cons [] (splitOnNl rest) (splitOnNl_ne_nil rest), ih]
      rfl
    · cases hs : splitOnNl rest with
      | nil => exact absurd hs (splitOnNl_ne_nil rest)
      | cons l ls =>
        have h1 : splitOnNl (c :: rest) = (c :: l) :: ls := by
          simp only [splitOnNl, hs, if_neg hc]
        rw [h1]
        rw [hs] at ih
        cases ls with
        | nil => simpa [joinNl] using ih
        | cons b bs =>
          rw [joinNl_cons (c :: l) (b :: bs) (by simp)]
          rw [joinNl_cons l (b :: bs) (by simp)] at ih
          rw [List.cons_append, ih]

theorem joinNl_append_singleton (xs : List (List Char)) (a : List Char) (h : xs ≠ []) :
    joinNl (xs ++ [a]) = joinNl xs ++ '\n' :: a := by
  induction xs with
  | nil => exact absurd rfl h
  | cons x xs ih =>
    cases xs with
    | nil => rfl
    | cons y ys =>
      rw [List.cons_append, joinNl_cons _ _ (by simp),
        joinNl_cons _ _ (by simp), ih (by simp)]
      simp

theorem joinNl_append_glue (xs : List (List Char)) (a b : List Char) :
    joinNl (xs ++ [a ++ '\n' :: b]) = joinNl (xs ++ [a]) ++ '\n' :: b := by
  cases hx : xs with
  | nil => simp [joinNl]
  | cons x xs' =>
    rw [joinNl_append_singleton _ _ (by simp), joinNl_append_singleton _ _ (by simp)]
    simp

/-! Unfolding equations for the pagination loop. -/

theorem pgLine_push {cpl maxVL : ℕ} {s : PgState} {line : List Char}
    (h : maxVL < s.currentVisualLines + visualLineCount cpl line ∧ s.current ≠ []) :
    pgLine cpl maxVL s line =
      ⟨s.cursor + 1, line, visualLineCount cpl line, s.cursor,
        s.pages ++ [⟨s.current, s.pageStartLine, max s.pageStartLine (s.cursor - 1)⟩]⟩ := by
  simp only [pgLine, if_pos h]

theorem pgLine_keep {cpl maxVL : ℕ} {s : PgState} {line : List Char}
    (h : ¬(maxVL < s.currentVisualLines + visualLineCount cpl line ∧ s.current ≠ [])) :
    pgLine cpl maxVL s line =
      ⟨s.cursor + 1, if s.current = [] then line else s.current ++ '\n' :: line,
        s.currentVisualLines + visualLineCount cpl line, s.pageStartLine, s.pages⟩ := by
  simp only [pgLine, if_neg h]

theorem procLines_nil (cpl maxVL : ℕ) (s : PgState) : procLines cpl maxVL s [] = s := rfl

theorem procLines_cons (cpl maxVL : ℕ) (s : PgState) (l : List Char) (ls : List (List Char)) :
    procLines cpl maxVL s (l :: ls) = procLines cpl maxVL (pgLine cpl maxVL s l) ls := rfl

/-- Main loop invariant for text reconstruction: as long as every line
of the input is nonempty, the pages produced so far plus the current
accumulator join back to the lines consumed so far. -/
theorem procLines_join (cpl maxVL : ℕ) :
    ∀ (rem done : List (List Char)) (s : PgState),
    (∀ l ∈ rem, l ≠ []) → done ≠ [] → s.current ≠ [] →
    joinNl (s.pages.map Page.text ++ [s.current]) = joinNl done →
    (procLines cpl maxVL s rem).current ≠ [] ∧
      joinNl ((procLines cpl maxVL s rem).pages.map Page.text ++
        [(procLines cpl maxVL s rem).current]) = joinNl (done ++ rem) := by
  intro rem
  induction rem with
  | nil =>
    intro done s _ _ hcur hjoin
    rw [procLines_nil]
    simpa using ⟨hcur, hjoin⟩
  | cons line rest ih =>
    intro done s hrem hdone hcur hjoin
    have hline : line ≠ [] := hrem line (by simp)
    have hrest : ∀ l ∈ rest, l ≠ [] := fun l hl => hrem l (by simp [hl])
    rw [procLines_cons]
    have hassoc : done ++ line :: rest = (done ++ [line]) ++ rest := by simp
    rw [hassoc]
    by_cases hif : maxVL < s.currentVisualLines + visualLineCount cpl line ∧ s.current ≠ []
    · rw [pgLine_push hif]
      refine ih (done ++ [line]) _ hrest (by simp) hline ?_
      have h1 : ((s.pages ++
          [⟨s.current, s.pageStartLine, max s.pageStartLine (s.cursor - 1)⟩] :
            List Page).map Page.text ++ [line]) =
          (s.pages.map Page.text ++ [s.current]) ++ [line] := by
        simp
      rw [h1, joinNl_append_singleton _ _ (by simp), hjoin,
        joinNl_append_singleton _ _ hdone]
    · rw [pgLine_keep hif]
      have hcur' : (if s.current = [] then line else s.current ++ '\n' :: line) =
          s.current ++ '\n' :: line := if_neg hcur
      rw [hcur']
      refine ih (done ++ [line]) _ hrest (by simp) (by simp) ?_
      rw [joinNl_append_glue, hjoin, joinNl_append_singleton _ _ hdone]

/-- C1 (amended): when every logical line of the normalized input is
nonempty, pagination reconstructs the normalized text exactly. -/
theorem paginateText_reconstructs_of_no_empty_line (input : List Char) (fontSize : ℕ)
    (h : ∀ l ∈ splitOnNl (normalizeNewlines input), l ≠ []) :
    joinNl ((paginateText input fontSize).map Page.text) = normalizeNewlines input := by
  cases hsplit : splitOnNl (normalizeNewlines input) with
  | nil => exact absurd hsplit (splitOnNl_ne_nil _)
  | cons l0 rest =>
    have hl0 : l0 ≠ [] := h l0 (by rw [hsplit]; simp)
    have hrest : ∀ l ∈ rest, l ≠ [] := fun l hl => h l (by rw [hsplit]; simp [hl])
    unfold paginateText
    rw [hsplit]
    change joinNl (List.map Page.text (flushPages (l0 :: rest).length
      (procLines (charsPerLine fontSize) (maxVisualLines fontSize) initPgState
        (l0 :: rest)))) = normalizeNewlines input
    rw [procLines_cons]
    have hkeep : ¬(maxVisualLines fontSize <
        (initPgState.currentVisualLines + visualLineCount (charsPerLine fontSize) l0) ∧
        initPgState.current ≠ []) := by
      intro hc
      exact hc.2 rfl
    rw [pgLine_keep hkeep]
    have hmain := procLines_join (charsPerLine fontSize) (maxVisualLines fontSize)
      rest [l0] ⟨initPgState.cursor + 1,
        if initPgState.current = [] then l0 else initPgState.current ++ '\n' :: l0,
        initPgState.currentVisualLines + visualLineCount (charsPerLine fontSize) l0,
        initPgState.pageStartLine, initPgState.pages⟩
      hrest (by simp) (by simpa [initPgState] using hl0) (by simp [initPgState, joinNl])
    set s' := procLines (charsPerLine fontSize) (maxVisualLines fontSize)
      ⟨initPgState.cursor + 1,
        if initPgState.current = [] then l0 else initPgState.current ++ '\n' :: l0,
        initPgState.currentVisualLines + visualLineCount (charsPerLine fontSize) l0,
        initPgState.pageStartLine, initPgState.pages⟩ rest with hs'
    obtain ⟨hcur', hjoin'⟩ := hmain
    unfold flushPages
    rw [if_pos hcur']
    rw [if_neg (by simp)]
    have hmap : ((s'.pages ++
        [⟨s'.current, s'.pageStartLine, max s'.pageStartLine ((l0 :: rest).length - 1)⟩] :
          List Page).map Page.text) = s'.pages.map Page.text ++ [s'.current] := by
      simp
    rw [hmap, hjoin']
    have : ([l0] ++ rest) = l0 :: rest := by simp
    rw [this]
    have := joinNl_splitOnNl (normalizeNewlines input)
    rw [hsplit] at this
    exact this

/-- C1 counterexample: the text `"\na"` (a leading empty line) does not
survive the pagination round trip: the pages join back to `"a"`. -/
theorem paginateText_drops_leading_empty_line :
    joinNl ((paginateText ['\n', 'a'] 22).map Page.text) ≠
      normalizeNewlines ['\n', 'a'] := by decide

/-- Witness for the amended C1 theorem at the concrete text `"ab\ncd"`. -/
theorem paginateText_reconstructs_witness :
    (∀ l ∈ splitOnNl (normalizeNewlines ['a', 'b', '\n', 'c', 'd']), l ≠ []) ∧
      joinNl ((paginateText ['a', 'b', '\n', 'c', 'd'] 22).map Page.text) =
        normalizeNewlines ['a', 'b', '\n', 'c', 'd'] :=
  ⟨by decide, paginateText_reconstructs_of_no_empty_line ['a', 'b', '\n', 'c', 'd'] 22
    (by decide)⟩

/-! Visual-line budget invariant (C6). -/

theorem visualEstimate_append (cpl : ℕ) (xs ys : List (List Char)) :
    visualEstimate cpl (xs ++ ys) = visualEstimate cpl xs + visualEstimate cpl ys := by
  simp [visualEstimate]

theorem visualEstimate_singleton (cpl : ℕ) (l : List Char) :
    visualEstimate cpl [l] = visualLineCount cpl l := by
  simp [visualEstimate]

theorem nonemptyLineCount_append (xs ys : List (List Char)) :
    nonemptyLineCount (xs ++ ys) = nonemptyLineCount xs + nonemptyLineCount ys := by
  simp [nonemptyLineCount, List.filter_append]

theorem nonemptyLineCount_singleton (l : List Char) :
    nonemptyLineCount [l] = if l = [] then 0 else 1 := by
  by_cases h : l = [] <;> simp [nonemptyLineCount, h, List.isEmpty_iff]

theorem nonemptyLineCount_singleton_le (l : List Char) : nonemptyLineCount [l] ≤ 1 := by
  rw [nonemptyLineCount_singleton]
  split <;> omega

theorem drop_append_of_le {α : Type} (l1 l2 : List α) (n : ℕ) (h : n ≤ l1.length) :
    (l1 ++ l2).drop n = l1.drop n ++ l2 := by
  rw [List.drop_append_eq_append_drop]
  simp [Nat.sub_eq_zero_of_le h]

theorem pageSourceLines_append (done extra : List (List Char)) (p : Page)
    (h : p.endLine + 1 ≤ done.length) :
    pageSourceLines (done ++ extra) p = pageSourceLines done p := by
  unfold pageSourceLines
  rcases le_or_lt p.startLine done.length with hs | hs
  · rw [drop_append_of_le _ _ _ hs]
    rw [List.take_append_of_le_length]
    rw [List.length_drop]
    omega
  · have h0 : p.endLine + 1 - p.startLine = 0 := by omega
    rw [h0]
    simp

/-- One step of the pagination loop preserves the budget invariant. -/
theorem pgLine_inv (cpl maxVL : ℕ) (done : List (List Char)) (s : PgState)
    (line : List Char) (h : PgInv cpl maxVL done s) :
    PgInv cpl maxVL (done ++ [line]) (pgLine cpl maxVL s line) := by
  obtain ⟨hcur, hps, hcvl, hiff, hcond, hpages⟩ := h
  by_cases hif : maxVL < s.currentVisualLines + visualLineCount cpl line ∧ s.current ≠ []
  · rw [pgLine_push hif]
    have hseg_ne : nonemptyLineCount (done.drop s.pageStartLine) ≠ 0 :=
      fun h0 => hif.2 (hiff.mpr h0)
    have hdrop_ne : done.drop s.pageStartLine ≠ [] := by
      intro h0
      exact hseg_ne (by rw [h0]; rfl)
    have hlt : s.pageStartLine < done.length := by
      by_contra hle
      exact hdrop_ne (List.drop_eq_nil_iff.mpr (by omega))
    have hmax : max s.pageStartLine (s.cursor - 1) = done.length - 1 := by
      rw [hcur]
      omega
    refine ⟨by simp [hcur], by simp; omega, ?_, ?_, ?_, ?_⟩
    · rw [hcur, List.drop_left, visualEstimate_singleton]
    · rw [hcur, List.drop_left, nonemptyLineCount_singleton]
      constructor
      · intro hl
        have hl' : line = [] := hl
        simp [hl']
      · intro hc
        by_cases hl : line = []
        · exact hl
        · rw [if_neg hl] at hc
          exact absurd hc one_ne_zero
    · rw [hcur, List.drop_left]
      intro h2
      exact absurd (lt_of_lt_of_le (by omega : 1 < 2) h2)
        (not_lt.mpr (nonemptyLineCount_singleton_le line))
    · intro p hp
      rcases List.mem_append.mp hp with hmem | hmem
      · obtain ⟨hb1, hb2, hb3⟩ := hpages p hmem
        rw [pageSourceLines_append done [line] p hb2]
        exact ⟨hb1, by simp; omega, hb3⟩
      · have hpeq : p = ⟨s.current, s.pageStartLine, max s.pageStartLine (s.cursor - 1)⟩ := by
          simpa using hmem
        subst hpeq
        rw [hmax]
        have hslice : pageSourceLines (done ++ [line])
            ⟨s.current, s.pageStartLine, done.length - 1⟩ = done.drop s.pageStartLine := by
          unfold pageSourceLines
          rw [drop_append_of_le _ _ _ (le_of_lt hlt)]
          have : done.length - 1 + 1 - s.pageStartLine = done.length - s.pageStartLine := by
            omega
          rw [this, List.take_append_of_le_length (by rw [List.length_drop])]
          exact List.take_of_length_le (by rw [List.length_drop])
        refine ⟨?_, ?_, ?_⟩
        · show s.pageStartLine ≤ done.length - 1
          omega
        · show done.length - 1 + 1 ≤ (done ++ [line]).length
          rw [List.length_append, List.length_singleton]
          omega
        · rw [hslice]
          intro h2
          rw [← hcvl]
          exact hcond h2
  · rw [pgLine_keep hif]
    have hseg : (done ++ [line]).drop s.pageStartLine =
        done.drop s.pageStartLine ++ [line] := drop_append_of_le _ _ _ hps
    refine ⟨by simp [hcur], by simp; omega, ?_, ?_, ?_, ?_⟩
    · rw [hseg, visualEstimate_append, visualEstimate_singleton, hcvl]
    · rw [hseg, nonemptyLineCount_append]
      by_cases hc : s.current = []
      · have h0 : nonemptyLineCount (done.drop s.pageStartLine) = 0 := hiff.mp hc
        rw [if_pos hc, h0, nonemptyLineCount_singleton]
        by_cases hl : line = [] <;> simp [hl]
      · have h0 : nonemptyLineCount (done.drop s.pageStartLine) ≠ 0 :=
          fun hz => hc (hiff.mpr hz)
        rw [if_neg hc]
        constructor
        · intro habs
          exact absurd habs (by simp)
        · intro hz
          omega
    · rw [hseg, nonemptyLineCount_append]
      intro h2
      rcases not_and_or.mp hif with hle | hc
      · exact not_lt.mp hle
      · have hc' : s.current = [] := not_not.mp hc
        have h0 : nonemptyLineCount (done.drop s.pageStartLine) = 0 := hiff.mp hc'
        have := nonemptyLineCount_singleton_le line
        omega
    · intro p hp
      obtain ⟨hb1, hb2, hb3⟩ := hpages p hp
      rw [pageSourceLines_append done [line] p hb2]
      exact ⟨hb1, by simp; omega, hb3⟩

/-- The pagination loop preserves the budget invariant over any list of
lines. -/
theorem procLines_inv (cpl maxVL : ℕ) :
    ∀ (rem done : List (List Char)) (s : PgState),
    PgInv cpl maxVL done s → PgInv cpl maxVL (done ++ rem) (procLines cpl maxVL s rem) := by
  intro rem
  induction rem with
  | nil =>
    intro done s h
    rw [procLines_nil]
    simpa using h
  | cons line rest ih =>
    intro done s h
    rw [procLines_cons]
    have h1 := ih (done ++ [line]) _ (pgLine_inv cpl maxVL done s line h)
    rw [List.append_assoc] at h1
    simpa using h1

theorem flushPages_of_current_ne (total : ℕ) (s : PgState) (h : s.current ≠ []) :
    flushPages total s =
      s.pages ++ [⟨s.current, s.pageStartLine, max s.pageStartLine (total - 1)⟩] := by
  unfold flushPages
  rw [if_pos h, if_neg (by simp)]

theorem flushPages_of_current_eq (total : ℕ) (s : PgState) (h : s.current = []) :
    flushPages total s = if s.pages = [] then [⟨[], 0, 0⟩] else s.pages := by
  unfold flushPages
  have hcond : ¬(s.current ≠ []) := fun hne => hne h
  simp only [if_neg hcond]

theorem nonemptyLineCount_le_length (ls : List (List Char)) :
    nonemptyLineCount ls ≤ ls.length :=
  List.length_filter_le _ _

theorem pageSourceLines_tail (lines : List (List Char)) (t : List Char) (start : ℕ)
    (h : start < lines.length) :
    pageSourceLines lines ⟨t, start, lines.length - 1⟩ = lines.drop start := by
  show (lines.drop start).take (lines.length - 1 + 1 - start) = lines.drop start
  have heq : lines.length - 1 + 1 - start = lines.length - start := by omega
  rw [heq]
  exact List.take_of_length_le (by rw [List.length_drop])

/-- C6 (amended): every page is within the visual-line budget except
pages containing at most one nonempty source line (the source `current`
accumulator stays empty over empty lines, so leading empty lines never
close a page; a page that exceeds the budget therefore has at most one
nonempty source line). -/
theorem paginateText_visual_budget (input : List Char) (fontSize : ℕ) (p : Page)
    (hp : p ∈ paginateText input fontSize)
    (h2 : 2 ≤ nonemptyLineCount
      (pageSourceLines (splitOnNl (normalizeNewlines input)) p)) :
    visualEstimate (charsPerLine fontSize)
        (pageSourceLines (splitOnNl (normalizeNewlines input)) p) ≤
      maxVisualLines fontSize := by
  set cpl := charsPerLine fontSize with hcpl
  set maxVL := maxVisualLines fontSize with hmaxVL
  set lines := splitOnNl (normalizeNewlines input) with hlinesdef
  have hinv0 : PgInv cpl maxVL [] initPgState := by
    refine ⟨rfl, le_refl 0, by simp [visualEstimate, initPgState], ?_, ?_, ?_⟩
    · simp [initPgState, nonemptyLineCount]
    · simp [nonemptyLineCount]
    · intro q hq
      simp [initPgState] at hq
  have hinv := procLines_inv cpl maxVL lines [] initPgState hinv0
  rw [List.nil_append] at hinv
  obtain ⟨hcur, hps, hcvl, hiff, hcond, hpages⟩ := hinv
  have hp' : p ∈ flushPages lines.length (procLines cpl maxVL initPgState lines) := hp
  by_cases hcne : (procLines cpl maxVL initPgState lines).current = []
  · rw [flushPages_of_current_eq _ _ hcne] at hp'
    by_cases hpg : (procLines cpl maxVL initPgState lines).pages = []
    · rw [if_pos hpg] at hp'
      have hpeq : p = ⟨[], 0, 0⟩ := by simpa using hp'
      subst hpeq
      have hsl : pageSourceLines lines ⟨[], 0, 0⟩ = lines.take 1 := by
        show (lines.drop 0).take (0 + 1 - 0) = lines.take 1
        simp
      rw [hsl] at h2
      have hle : nonemptyLineCount (lines.take 1) ≤ 1 :=
        le_trans (nonemptyLineCount_le_length _) (by simp [List.length_take])
      omega
    · rw [if_neg hpg] at hp'
      exact (hpages p hp').2.2 h2
  · rw [flushPages_of_current_ne _ _ hcne] at hp'
    rcases List.mem_append.mp hp' with hmem | hmem
    · exact (hpages p hmem).2.2 h2
    · have hseg_ne : nonemptyLineCount
          (lines.drop (procLines cpl maxVL initPgState lines).pageStartLine) ≠ 0 :=
        fun h0 => hcne (hiff.mpr h0)
      have hdrop_ne : lines.drop (procLines cpl maxVL initPgState lines).pageStartLine
          ≠ [] := by
        intro h0
        exact hseg_ne (by rw [h0]; rfl)
      have hlt : (procLines cpl maxVL initPgState lines).pageStartLine < lines.length := by
        by_contra hle
        exact hdrop_ne (List.drop_eq_nil_iff.mpr (by omega))
      have hmax : max (procLines cpl maxVL initPgState lines).pageStartLine
          (lines.length - 1) = lines.length - 1 := by omega
      have hpeq : p = ⟨(procLines cpl maxVL initPgState lines).current,
          (procLines cpl maxVL initPgState lines).pageStartLine, lines.length - 1⟩ := by
        rw [hmax] at hmem
        simpa using hmem
      subst hpeq
      rw [pageSourceLines_tail lines _ _ hlt] at h2 ⊢
      rw [← hcvl]
      exact hcond h2

set_option maxRecDepth 10000 in
/-- C6 counterexample: at fontSize 22 the text made of 31 empty lines
followed by `"a"` produces a single page spanning source lines 0-31
(not a single source line) whose visual-line estimate 32 exceeds the
budget 30. -/
theorem paginateText_budget_counterexample :
    ∃ p ∈ paginateText (List.replicate 31 '\n' ++ ['a']) 22,
      p.startLine ≠ p.endLine ∧
      maxVisualLines 22 < visualEstimate (charsPerLine 22)
        (pageSourceLines
          (splitOnNl (normalizeNewlines (List.replicate 31 '\n' ++ ['a']))) p) := by
  decide

/-- Witness for the amended C6 theorem at the concrete text `"aa\nbb"`. -/
theorem paginateText_visual_budget_witness :
    ((⟨['a', 'a', '\n', 'b', 'b'], 0, 1⟩ : Page) ∈
        paginateText ['a', 'a', '\n', 'b', 'b'] 22 ∧
      2 ≤ nonemptyLineCount (pageSourceLines
        (splitOnNl (normalizeNewlines ['a', 'a', '\n', 'b', 'b']))
        ⟨['a', 'a', '\n', 'b', 'b'], 0, 1⟩)) ∧
      visualEstimate (charsPerLine 22)
          (pageSourceLines (splitOnNl (normalizeNewlines ['a', 'a', '\n', 'b', 'b']))
            ⟨['a', 'a', '\n', 'b', 'b'], 0, 1⟩) ≤
        maxVisualLines 22 :=
  ⟨⟨by decide, by decide⟩,
    paginateText_visual_budget ['a', 'a', '\n', 'b', 'b'] 22 _ (by decide) (by decide)⟩

/-! Concrete pagination scenario (C9): 20 lines of 100 x-characters at
fontSize 22. -/

set_option maxRecDepth 100000 in
/-- C9 counterexample: the scenario text (20 lines of 100 `x`) at
fontSize 22 paginates into 2 pages, not the 4 pages the claim states
(the derived constants are charsPerLine 46 and maxVisualLines 30, not
about 47 and 12). -/
theorem paginateText_scenario_counterexample :
    (paginateText (joinNl (List.replicate 20 (List.replicate 100 'x'))) 22).length ≠ 4 := by
  decide

set_option maxRecDepth 100000 in
/-- C9 (amended): at fontSize 22 the derived constants are
charsPerLine 46 and maxVisualLines 30; each 100-character line is 3
visual lines, so pages hold 10 source lines; the scenario text yields
exactly 2 pages spanning lines 0-9 and 10-19, each within the budget. -/
theorem paginateText_scenario :
    charsPerLine 22 = 46 ∧ maxVisualLines 22 = 30 ∧
    visualLineCount (charsPerLine 22) (List.replicate 100 'x') = 3 ∧
    (paginateText (joinNl (List.replicate 20 (List.replicate 100 'x'))) 22).length = 2 ∧
    (paginateText (joinNl (List.replicate 20 (List.replicate 100 'x'))) 22).map
      Page.startLine = [0, 10] ∧
    (paginateText (joinNl (List.replicate 20 (List.replicate 100 'x'))) 22).map
      Page.endLine = [9, 19] ∧
    (∀ p ∈ paginateText (joinNl (List.replicate 20 (List.replicate 100 'x'))) 22,
      visualEstimate (charsPerLine 22)
        (pageSourceLines (splitOnNl (normalizeNewlines
          (joinNl (List.replicate 20 (List.replicate 100 'x'))))) p) ≤
        maxVisualLines 22) := by
  refine ⟨by decide, by decide, by decide, by decide, by decide, by decide, by decide⟩

/-! Stale-job suppression and refinement of the incremental job
(C2, C10). -/

theorem procLines_append (cpl maxVL : ℕ) (s : PgState) (xs ys : List (List Char)) :
    procLines cpl maxVL s (xs ++ ys) = procLines cpl maxVL (procLines cpl maxVL s xs) ys := by
  simp [procLines, List.foldl_append]

theorem pagApply_ref_mono (w : PagWorld) (e : PagEvent) : w.ref ≤ (pagApply w e).ref := by
  cases e with
  | start input fontSize => simp [pagApply, startPagJob]
  | step n =>
    show w.ref ≤ (stepPagJob w n).ref
    unfold stepPagJob
    cases h : w.jobs.get? n with
    | none => simp
    | some j =>
      simp only []
      by_cases hid : w.ref ≠ j.id
      · rw [if_pos hid]
      · rw [if_neg hid]
        by_cases hr : j.rest.drop 1200 = [] <;> simp [hr]

theorem pagRun_ref_mono (evs : List PagEvent) :
    ∀ w : PagWorld, w.ref ≤ (pagRun w evs).ref := by
  induction evs with
  | nil => intro w; exact le_refl _
  | cons e evs ih =>
    intro w
    exact le_trans (pagApply_ref_mono w e) (ih (pagApply w e))

theorem stepPagJob_some (w : PagWorld) (n : ℕ) (j : PagJob)
    (h : w.jobs.get? n = some j) :
    stepPagJob w n =
      if w.ref ≠ j.id then { w with jobs := w.jobs.eraseIdx n }
      else if j.rest.drop 1200 = [] then
        { ref := w.ref,
          pages := flushPages j.total (procLines j.cpl j.maxVL j.st (j.rest.take 1200)),
          done := true, jobs := w.jobs.eraseIdx n }
      else
        { ref := w.ref,
          pages := if 5000 ≤ j.processedSincePublish + (j.rest.take 1200).length then
              (if (procLines j.cpl j.maxVL j.st (j.rest.take 1200)).pages = [] then
                [⟨[], 0, 0⟩]
              else (procLines j.cpl j.maxVL j.st (j.rest.take 1200)).pages)
            else w.pages,
          done := w.done,
          jobs := w.jobs.set n ⟨j.id, j.rest.drop 1200, j.total, j.cpl, j.maxVL,
            procLines j.cpl j.maxVL j.st (j.rest.take 1200),
            if 5000 ≤ j.processedSincePublish + (j.rest.take 1200).length then 0
            else j.processedSincePublish + (j.rest.take 1200).length⟩ } := by
  unfold stepPagJob
  rw [h]

theorem pagRun_step_cons (w : PagWorld) (n : ℕ) (evs : List PagEvent) :
    pagRun w (PagEvent.step n :: evs) = pagRun (stepPagJob w n) evs := rfl

theorem stepPagJob_stale (w : PagWorld) (n : ℕ) (j : PagJob)
    (h1 : w.jobs.get? n = some j) (h2 : j.id ≠ w.ref) :
    (stepPagJob w n).pages = w.pages ∧ (stepPagJob w n).done = w.done := by
  rw [stepPagJob_some w n j h1, if_pos (Ne.symm h2)]
  exact ⟨rfl, rfl⟩

/-- C2: once a second pagination job has been started (bumping the job
counter to 2), any later run of a step captured by the first job (id 1)
leaves the published page list and the done flag unchanged, whatever
other events happened in between. -/
theorem pagination_stale_job_suppression (t1 t2 : List Char) (f1 f2 : ℕ)
    (evs : List PagEvent) (n : ℕ) (j : PagJob)
    (hj : (pagRun (startPagJob (startPagJob initPagWorld t1 f1) t2 f2) evs).jobs.get? n =
      some j)
    (hid : j.id = 1) :
    (stepPagJob (pagRun (startPagJob (startPagJob initPagWorld t1 f1) t2 f2) evs) n).pages =
      (pagRun (startPagJob (startPagJob initPagWorld t1 f1) t2 f2) evs).pages ∧
    (stepPagJob (pagRun (startPagJob (startPagJob initPagWorld t1 f1) t2 f2) evs) n).done =
      (pagRun (startPagJob (startPagJob initPagWorld t1 f1) t2 f2) evs).done := by
  have h2 : (startPagJob (startPagJob initPagWorld t1 f1) t2 f2).ref = 2 := rfl
  have hmono := pagRun_ref_mono evs (startPagJob (startPagJob initPagWorld t1 f1) t2 f2)
  rw [h2] at hmono
  exact stepPagJob_stale _ n j hj (by omega)

/-- Witness for C2: two jobs started for one-character texts, no
intervening events, stepping the stale job 1. -/
theorem pagination_stale_job_suppression_witness :
    ((pagRun (startPagJob (startPagJob initPagWorld ['a'] 22) ['b'] 22) []).jobs.get? 0 =
      some ⟨1, [['a']], 1, 46, 30, initPgState, 0⟩ ∧
      (⟨1, [['a']], 1, 46, 30, initPgState, 0⟩ : PagJob).id = 1) ∧
    ((stepPagJob (pagRun (startPagJob (startPagJob initPagWorld ['a'] 22) ['b'] 22) []) 0).pages =
      (pagRun (startPagJob (startPagJob initPagWorld ['a'] 22) ['b'] 22) []).pages ∧
    (stepPagJob (pagRun (startPagJob (startPagJob initPagWorld ['a'] 22) ['b'] 22) []) 0).done =
      (pagRun (startPagJob (startPagJob initPagWorld ['a'] 22) ['b'] 22) []).done) :=
  ⟨⟨by decide, rfl⟩,
    pagination_stale_job_suppression ['a'] ['b'] 22 22 [] 0
      ⟨1, [['a']], 1, 46, 30, initPgState, 0⟩ (by decide) rfl⟩

theorem pagRun_steps_no_jobs (k : ℕ) :
    ∀ w : PagWorld, w.jobs = [] →
    pagRun w (List.replicate k (PagEvent.step 0)) = w := by
  induction k with
  | zero => intro w _; rfl
  | succ k ih =>
    intro w hw
    rw [List.replicate_succ, pagRun_step_cons]
    have hstep : stepPagJob w 0 = w := by
      unfold stepPagJob
      rw [hw]
      rfl
    rw [hstep]
    exact ih w hw

/-- A sole, current job run for enough steps finalizes with exactly the
pages of the one-shot loop over all its remaining lines. -/
theorem pagJob_completes (k : ℕ) :
    ∀ (w : PagWorld) (j : PagJob),
    w.jobs = [j] → w.ref = j.id → j.rest.length ≤ 1200 * (k + 1) →
    (pagRun w (List.replicate (k + 1) (PagEvent.step 0))).pages =
      flushPages j.total (procLines j.cpl j.maxVL j.st j.rest) ∧
    (pagRun w (List.replicate (k + 1) (PagEvent.step 0))).done = true := by
  induction k with
  | zero =>
    intro w j hjobs href hlen
    have hget : w.jobs.get? 0 = some j := by rw [hjobs]; rfl
    have hdrop : j.rest.drop 1200 = [] := List.drop_eq_nil_iff.mpr (by omega)
    have htake : j.rest.take 1200 = j.rest := List.take_of_length_le (by omega)
    rw [List.replicate_succ, pagRun_step_cons, stepPagJob_some w 0 j hget,
      if_neg (show ¬w.ref ≠ j.id from fun h => h href), htake, if_pos hdrop]
    exact ⟨rfl, rfl⟩
  | succ k ih =>
    intro w j hjobs href hlen
    have hget : w.jobs.get? 0 = some j := by rw [hjobs]; rfl
    rw [List.replicate_succ, pagRun_step_cons, stepPagJob_some w 0 j hget,
      if_neg (show ¬w.ref ≠ j.id from fun h => h href)]
    by_cases hdrop : j.rest.drop 1200 = []
    · rw [if_pos hdrop, List.take_of_length_le (List.drop_eq_nil_iff.mp hdrop)]
      rw [pagRun_steps_no_jobs (k + 1)
        { ref := w.ref, pages := flushPages j.total (procLines j.cpl j.maxVL j.st j.rest),
          done := true, jobs := w.jobs.eraseIdx 0 }
        (by rw [hjobs]; rfl)]
      exact ⟨rfl, rfl⟩
    · rw [if_neg hdrop]
      have hres := ih
        { ref := w.ref,
          pages := if 5000 ≤ j.processedSincePublish + (j.rest.take 1200).length then
              (if (procLines j.cpl j.maxVL j.st (j.rest.take 1200)).pages = [] then
                [⟨[], 0, 0⟩]
              else (procLines j.cpl j.maxVL j.st (j.rest.take 1200)).pages)
            else w.pages,
          done := w.done,
          jobs := w.jobs.set 0 ⟨j.id, j.rest.drop 1200, j.total, j.cpl, j.maxVL,
            procLines j.cpl j.maxVL j.st (j.rest.take 1200),
            if 5000 ≤ j.processedSincePublish + (j.rest.take 1200).length then 0
            else j.processedSincePublish + (j.rest.take 1200).length⟩ }
        ⟨j.id, j.rest.drop 1200, j.total, j.cpl, j.maxVL,
          procLines j.cpl j.maxVL j.st (j.rest.take 1200),
          if 5000 ≤ j.processedSincePublish + (j.rest.take 1200).length then 0
          else j.processedSincePublish + (j.rest.take 1200).length⟩
        (by rw [hjobs]; rfl) href
        (by
          have hlen2 : (j.rest.drop 1200).length = j.rest.length - 1200 :=
            List.length_drop 1200 j.rest
          simp only [hlen2]
          omega)
      have hproc : procLines j.cpl j.maxVL
          (procLines j.cpl j.maxVL j.st (j.rest.take 1200)) (j.rest.drop 1200) =
          procLines j.cpl j.maxVL j.st j.rest := by
        rw [← procLines_append, List.take_append_drop]
      simp only [hproc] at hres
      exact hres

/-- C10: started from the initial world and stepped to completion
without interference, the incremental pagination job publishes exactly
the page list of the synchronous `paginateText`, and sets the done
flag. -/
theorem chunked_pagination_refines_paginateText (input : List Char) (fontSize : ℕ) :
    (pagRun (startPagJob initPagWorld input fontSize)
      (List.replicate ((splitOnNl (normalizeNewlines input)).length / 1200 + 1)
        (PagEvent.step 0))).pages = paginateText input fontSize ∧
    (pagRun (startPagJob initPagWorld input fontSize)
      (List.replicate ((splitOnNl (normalizeNewlines input)).length / 1200 + 1)
        (PagEvent.step 0))).done = true := by
  have hbound : (splitOnNl (normalizeNewlines input)).length ≤
      1200 * ((splitOnNl (normalizeNewlines input)).length / 1200 + 1) := by
    have h1 := Nat.div_add_mod (splitOnNl (normalizeNewlines input)).length 1200
    have h2 := Nat.mod_lt (splitOnNl (normalizeNewlines input)).length
      (by omega : 0 < 1200)
    omega
  exact pagJob_completes ((splitOnNl (normalizeNewlines input)).length / 1200)
    (startPagJob initPagWorld input fontSize)
    ⟨1, splitOnNl (normalizeNewlines input), (splitOnNl (normalizeNewlines input)).length,
      charsPerLine fontSize, maxVisualLines fontSize, initPgState, 0⟩
    rfl rfl hbound

/-! Single-flight recenter (C3) and its failure semantics (C7). -/

/-- C3: a second recenter call while one is in flight is a complete
no-op (no fetch is issued, no state is touched), so two back-to-back
calls issue exactly one fetch; and any call that issues a fetch found
the busy flag clear and sets it. -/
theorem recenter_single_flight (s : RecenterSession) (g1 g2 : ℚ)
    (hext : s.isExternal = false) (hitem : s.hasTextItem = true) (hbusy : s.busy = false) :
    recenterCall (recenterCall s g1) g2 = recenterCall s g1 ∧
    (recenterCall s g1).fetchCount = s.fetchCount + 1 ∧
    ∀ (t : RecenterSession) (g : ℚ),
      (recenterCall t g).fetchCount ≠ t.fetchCount →
      t.busy = false ∧ (recenterCall t g).busy = true := by
  refine ⟨?_, ?_, ?_⟩
  · simp [recenterCall, hext, hitem, hbusy]
  · simp [recenterCall, hext, hitem, hbusy]
  · intro t g hne
    unfold recenterCall at hne ⊢
    by_cases h1 : (t.isExternal || t.busy) = true
    · rw [if_pos h1] at hne
      exact absurd rfl hne
    · rw [if_neg h1] at hne ⊢
      by_cases h2 : (!t.hasTextItem) = true
      · rw [if_pos h2] at hne
        exact absurd rfl hne
      · rw [if_neg h2]
        simp only [Bool.or_eq_true, not_or] at h1
        exact ⟨by simpa using h1.2, rfl⟩

/-- Witness for C3 at a concrete idle session. -/
theorem recenter_single_flight_witness :
    ((⟨false, true, ['k'], false, ⟨0, 100, 1000, ['k']⟩, ['t'], none, none, false, 0,
        none⟩ : RecenterSession).isExternal = false ∧
      (⟨false, true, ['k'], false, ⟨0, 100, 1000, ['k']⟩, ['t'], none, none, false, 0,
        none⟩ : RecenterSession).hasTextItem = true ∧
      (⟨false, true, ['k'], false, ⟨0, 100, 1000, ['k']⟩, ['t'], none, none, false, 0,
        none⟩ : RecenterSession).busy = false) ∧
    (recenterCall (recenterCall ⟨false, true, ['k'], false, ⟨0, 100, 1000, ['k']⟩, ['t'],
        none, none, false, 0, none⟩ (1/2)) (3/4) =
      recenterCall ⟨false, true, ['k'], false, ⟨0, 100, 1000, ['k']⟩, ['t'],
        none, none, false, 0, none⟩ (1/2) ∧
    (recenterCall ⟨false, true, ['k'], false, ⟨0, 100, 1000, ['k']⟩, ['t'],
        none, none, false, 0, none⟩ (1/2)).fetchCount =
      (⟨false, true, ['k'], false, ⟨0, 100, 1000, ['k']⟩, ['t'], none, none, false, 0,
        none⟩ : RecenterSession).fetchCount + 1 ∧
    ∀ (t : RecenterSession) (g : ℚ),
      (recenterCall t g).fetchCount ≠ t.fetchCount →
      t.busy = false ∧ (recenterCall t g).busy = true) :=
  ⟨⟨rfl, rfl, rfl⟩,
    recenter_single_flight ⟨false, true, ['k'], false, ⟨0, 100, 1000, ['k']⟩, ['t'],
      none, none, false, 0, none⟩ (1/2) (3/4) rfl rfl rfl⟩

/-- C7: when the range fetch of a recenter fails, the window record,
the loaded text and both pending-restore refs are unchanged (the catch
block only logs, all mutations sit after the await), the busy flag is
released by the finally block, and a subsequent recenter attempt can
issue a fetch again. -/
theorem recenter_failure_preserves_state (s : RecenterSession) (g g' : ℚ)
    (hext : s.isExternal = false) (hitem : s.hasTextItem = true) (hbusy : s.busy = false) :
    (recenterReject (recenterCall s g)).window = s.window ∧
    (recenterReject (recenterCall s g)).preview = s.preview ∧
    (recenterReject (recenterCall s g)).pendingScrollRestore = s.pendingScrollRestore ∧
    (recenterReject (recenterCall s g)).pendingRestoreGlobal = s.pendingRestoreGlobal ∧
    (recenterReject (recenterCall s g)).busy = false ∧
    (recenterCall (recenterReject (recenterCall s g)) g').fetchCount =
      (recenterReject (recenterCall s g)).fetchCount + 1 := by
  simp [recenterCall, recenterReject, hext, hitem, hbusy]

/-- Witness for C7 at a concrete idle session. -/
theorem recenter_failure_preserves_state_witness :
    (recenterReject (recenterCall ⟨false, true, ['k'], false, ⟨0, 100, 1000, ['k']⟩, ['t'],
        none, none, false, 0, none⟩ (1/2))).window =
      (⟨false, true, ['k'], false, ⟨0, 100, 1000, ['k']⟩, ['t'], none, none, false, 0,
        none⟩ : RecenterSession).window ∧
    (recenterReject (recenterCall ⟨false, true, ['k'], false, ⟨0, 100, 1000, ['k']⟩, ['t'],
        none, none, false, 0, none⟩ (1/2))).preview =
      (⟨false, true, ['k'], false, ⟨0, 100, 1000, ['k']⟩, ['t'], none, none, false, 0,
        none⟩ : RecenterSession).preview ∧
    (recenterReject (recenterCall ⟨false, true, ['k'], false, ⟨0, 100, 1000, ['k']⟩, ['t'],
        none, none, false, 0, none⟩ (1/2))).pendingScrollRestore =
      (⟨false, true, ['k'], false, ⟨0, 100, 1000, ['k']⟩, ['t'], none, none, false, 0,
        none⟩ : RecenterSession).pendingScrollRestore ∧
    (recenterReject (recenterCall ⟨false, true, ['k'], false, ⟨0, 100, 1000, ['k']⟩, ['t'],
        none, none, false, 0, none⟩ (1/2))).pendingRestoreGlobal =
      (⟨false, true, ['k'], false, ⟨0, 100, 1000, ['k']⟩, ['t'], none, none, false, 0,
        none⟩ : RecenterSession).pendingRestoreGlobal ∧
    (recenterReject (recenterCall ⟨false, true, ['k'], false, ⟨0, 100, 1000, ['k']⟩, ['t'],
        none, none, false, 0, none⟩ (1/2))).busy = false ∧
    (recenterCall (recenterReject (recenterCall ⟨false, true, ['k'], false,
        ⟨0, 100, 1000, ['k']⟩, ['t'], none, none, false, 0, none⟩ (1/2))) (3/4)).fetchCount =
      (recenterReject (recenterCall ⟨false, true, ['k'], false, ⟨0, 100, 1000, ['k']⟩, ['t'],
        none, none, false, 0, none⟩ (1/2))).fetchCount + 1 :=
  recenter_failure_preserves_state ⟨false, true, ['k'], false, ⟨0, 100, 1000, ['k']⟩, ['t'],
    none, none, false, 0, none⟩ (1/2) (3/4) rfl rfl rfl

/-! Reader-mode entry behavior (C8). -/

/-- C8 counterexample: a stored album text item (not external) opened
with persisted preference `paged` still enters the session in scroll
mode, because the `novelMode` effect forces scroll unconditionally. -/
theorem reader_mode_entry_counterexample :
    sessionEntryMode (some NovelViewMode.paged) false = NovelViewMode.scroll ∧
    NovelViewMode.scroll ≠ NovelViewMode.paged :=
  ⟨rfl, by decide⟩

/-- C8 (amended): opening the novel viewer forces scroll as the entry
mode for every persisted preference and every item kind; the persisted
preference only governs the mode before the viewer opens. -/
theorem reader_mode_entry_always_scroll (pref : Option NovelViewMode) (isExternal : Bool) :
    sessionEntryMode pref isExternal = NovelViewMode.scroll := by
  cases pref <;> rfl

/-! Progress clamping (C5). -/

theorem clamp01_nonneg (x : ℚ) : 0 ≤ clamp01 x := le_max_left 0 _

theorem clamp01_le_one (x : ℚ) : clamp01 x ≤ 1 := max_le (by norm_num) (min_le_left 1 x)

theorem setTextPageAndSave_bounds (s : ReaderState) (n : ℤ)
    (h : 0 ≤ s.readerProgress ∧ s.readerProgress ≤ 1) :
    (0 ≤ (setTextPageAndSave s n).scrollProgress ∧
      (setTextPageAndSave s n).scrollProgress ≤ 1) ∧
    (0 ≤ (setTextPageAndSave s n).readerProgress ∧
      (setTextPageAndSave s n).readerProgress ≤ 1) := by
  obtain ⟨ext, hti, ws, wstop, wt, pl, tp, sap, sp, rp⟩ := s
  simp only [ReaderState.readerProgress] at h
  have hlp0 : 0 ≤ (if 1 < pl then
      ((max 0 (min ((pl : ℤ) - 1) n) : ℤ) : ℚ) / ((pl : ℚ) - 1) else (1 : ℚ)) := by
    by_cases hl : 1 < pl
    · rw [if_pos hl]
      apply div_nonneg
      · exact_mod_cast le_max_left (0 : ℤ) _
      · have h2 : (2 : ℚ) ≤ (pl : ℚ) := by exact_mod_cast hl
        linarith
    · rw [if_neg hl]
      norm_num
  have hlp1 : (if 1 < pl then
      ((max 0 (min ((pl : ℤ) - 1) n) : ℤ) : ℚ) / ((pl : ℚ) - 1) else (1 : ℚ)) ≤ 1 := by
    by_cases hl : 1 < pl
    · rw [if_pos hl]
      have hd : (0 : ℚ) < (pl : ℚ) - 1 := by
        have h2 : (2 : ℚ) ≤ (pl : ℚ) := by exact_mod_cast hl
        linarith
      rw [div_le_one hd]
      have hble : max 0 (min ((pl : ℤ) - 1) n) ≤ (pl : ℤ) - 1 := by
        apply max_le
        · omega
        · exact min_le_left _ _
      calc ((max 0 (min ((pl : ℤ) - 1) n) : ℤ) : ℚ) ≤ (((pl : ℤ) - 1 : ℤ) : ℚ) := by
            exact_mod_cast hble
        _ = (pl : ℚ) - 1 := by push_cast; ring
    · rw [if_neg hl]
  cases ext with
  | true => exact ⟨⟨hlp0, hlp1⟩, hlp0, hlp1⟩
  | false =>
    cases hti with
    | true => exact ⟨⟨hlp0, hlp1⟩, clamp01_nonneg _, clamp01_le_one _⟩
    | false => exact ⟨⟨hlp0, hlp1⟩, h⟩

theorem onNovelScroll_bounds (s : ReaderState) (top sh ch : ℚ)
    (h0 : 0 ≤ s.scrollProgress ∧ s.scrollProgress ≤ 1)
    (h1 : 0 ≤ s.readerProgress ∧ s.readerProgress ≤ 1)
    (hc : (s.externalItem = false ∧ 0 < s.winTotal) ∨
      (sh - ch ≤ 0 ∨ (0 ≤ top ∧ top ≤ sh - ch))) :
    (0 ≤ (onNovelScroll s top sh ch).scrollProgress ∧
      (onNovelScroll s top sh ch).scrollProgress ≤ 1) ∧
    (0 ≤ (onNovelScroll s top sh ch).readerProgress ∧
      (onNovelScroll s top sh ch).readerProgress ≤ 1) := by
  simp only [onNovelScroll]
  by_cases hm : sh - ch ≤ 0
  · rw [if_pos hm]
    exact ⟨h0, h1⟩
  · rw [if_neg hm]
    by_cases hw : s.externalItem = false ∧ 0 < s.winTotal
    · rw [if_pos hw]
      exact ⟨⟨clamp01_nonneg _, clamp01_le_one _⟩, clamp01_nonneg _, clamp01_le_one _⟩
    · rw [if_neg hw]
      have hrange : 0 ≤ top ∧ top ≤ sh - ch := by
        rcases hc with hwd | hr
        · exact absurd hwd hw
        · rcases hr with hle | hr
          · exact absurd hle hm
          · exact hr
      have hmpos : 0 < sh - ch := lt_of_not_le hm
      have hdiv0 : 0 ≤ top / (sh - ch) := div_nonneg hrange.1 (le_of_lt hmpos)
      have hdiv1 : top / (sh - ch) ≤ 1 := by
        rw [div_le_one hmpos]
        exact hrange.2
      exact ⟨⟨hdiv0, hdiv1⟩, hdiv0, hdiv1⟩

theorem readerStep_preserves_doc (s : ReaderState) (e : ReaderEvent) :
    (readerStep s e).externalItem = s.externalItem ∧
    (readerStep s e).winTotal = s.winTotal := by
  cases e with
  | pageChange n =>
    show (setTextPageAndSave s n).externalItem = _ ∧ (setTextPageAndSave s n).winTotal = _
    simp only [setTextPageAndSave]
    split_ifs <;> exact ⟨rfl, rfl⟩
  | scroll t hh c =>
    show (onNovelScroll s t hh c).externalItem = _ ∧ (onNovelScroll s t hh c).winTotal = _
    simp only [onNovelScroll]
    split_ifs <;> exact ⟨rfl, rfl⟩

/-- C5 (amended): across every sequence of page-change and scroll
events the stored progress fractions stay in `[0,1]` provided the
document is windowed (album text with a loaded window), or every
scroll event's `scrollTop` is within the scrollable range.  For a
non-windowed document an out-of-range `scrollTop` escapes the
interval (see the counterexample), because `onNovelScroll` uses the
raw local fraction there. -/
theorem reader_progress_clamped (s : ReaderState) (evs : List ReaderEvent)
    (h0 : 0 ≤ s.scrollProgress ∧ s.scrollProgress ≤ 1)
    (h1 : 0 ≤ s.readerProgress ∧ s.readerProgress ≤ 1)
    (hc : (s.externalItem = false ∧ 0 < s.winTotal) ∨ ∀ e ∈ evs, scrollEventInRange e) :
    (0 ≤ (readerRun s evs).scrollProgress ∧ (readerRun s evs).scrollProgress ≤ 1) ∧
    (0 ≤ (readerRun s evs).readerProgress ∧ (readerRun s evs).readerProgress ≤ 1) := by
  induction evs generalizing s with
  | nil => exact ⟨h0, h1⟩
  | cons e rest ih =>
    have hrun : readerRun s (e :: rest) = readerRun (readerStep s e) rest := rfl
    rw [hrun]
    have hstep : (0 ≤ (readerStep s e).scrollProgress ∧ (readerStep s e).scrollProgress ≤ 1) ∧
        (0 ≤ (readerStep s e).readerProgress ∧ (readerStep s e).readerProgress ≤ 1) := by
      cases e with
      | pageChange n => exact setTextPageAndSave_bounds s n h1
      | scroll t hh c =>
        apply onNovelScroll_bounds s t hh c h0 h1
        rcases hc with hwd | hall
        · exact Or.inl hwd
        · exact Or.inr (hall (ReaderEvent.scroll t hh c) (by simp))
    obtain ⟨hpe, hpw⟩ := readerStep_preserves_doc s e
    apply ih (readerStep s e) hstep.1 hstep.2
    rcases hc with hwd | hall
    · exact Or.inl (by rw [hpe, hpw]; exact hwd)
    · exact Or.inr (fun e' he' => hall e' (by simp [he']))

/-- C5 counterexample: on a non-windowed (external) document, a scroll
event with negative `scrollTop` drives the stored global progress below
0: `onNovelScroll` stores the raw `scrollTop / max` there. -/
theorem reader_progress_counterexample :
    (readerRun ⟨true, false, 0, 0, 0, 1, 0, 0, 0, 0⟩
      [ReaderEvent.scroll (-1) 2 1]).readerProgress < 0 := by
  norm_num [readerRun, readerStep, onNovelScroll]

/-- Witness for the amended C5 theorem: a windowed document receiving
an out-of-range scroll and an out-of-range page change keeps progress
inside the unit interval. -/
theorem reader_progress_clamped_witness :
    (((0 : ℚ) ≤ (⟨false, true, 100, 200, 1000, 5, 0, 0, 0, 0⟩ : ReaderState).scrollProgress ∧
        (⟨false, true, 100, 200, 1000, 5, 0, 0, 0, 0⟩ : ReaderState).scrollProgress ≤ 1) ∧
      ((0 : ℚ) ≤ (⟨false, true, 100, 200, 1000, 5, 0, 0, 0, 0⟩ : ReaderState).readerProgress ∧
        (⟨false, true, 100, 200, 1000, 5, 0, 0, 0, 0⟩ : ReaderState).readerProgress ≤ 1) ∧
      (((⟨false, true, 100, 200, 1000, 5, 0, 0, 0, 0⟩ : ReaderState).externalItem = false ∧
        0 < (⟨false, true, 100, 200, 1000, 5, 0, 0, 0, 0⟩ : ReaderState).winTotal) ∨
        ∀ e ∈ [ReaderEvent.scroll (-5) 3 1, ReaderEvent.pageChange 99],
          scrollEventInRange e)) ∧
    ((0 ≤ (readerRun ⟨false, true, 100, 200, 1000, 5, 0, 0, 0, 0⟩
        [ReaderEvent.scroll (-5) 3 1, ReaderEvent.pageChange 99]).scrollProgress ∧
      (readerRun ⟨false, true, 100, 200, 1000, 5, 0, 0, 0, 0⟩
        [ReaderEvent.scroll (-5) 3 1, ReaderEvent.pageChange 99]).scrollProgress ≤ 1) ∧
    (0 ≤ (readerRun ⟨false, true, 100, 200, 1000, 5, 0, 0, 0, 0⟩
        [ReaderEvent.scroll (-5) 3 1, ReaderEvent.pageChange 99]).readerProgress ∧
      (readerRun ⟨false, true, 100, 200, 1000, 5, 0, 0, 0, 0⟩
        [ReaderEvent.scroll (-5) 3 1, ReaderEvent.pageChange 99]).readerProgress ≤ 1)) :=
  ⟨⟨⟨le_refl 0, by norm_num⟩, ⟨le_refl 0, by norm_num⟩, Or.inl ⟨rfl, by norm_num⟩⟩,
    reader_progress_clamped ⟨false, true, 100, 200, 1000, 5, 0, 0, 0, 0⟩
      [ReaderEvent.scroll (-5) 3 1, ReaderEvent.pageChange 99]
      ⟨le_refl 0, by norm_num⟩ ⟨le_refl 0, by norm_num⟩ (Or.inl ⟨rfl, by norm_num⟩)⟩

/-! Round trip of the window-local / global fraction conversions (C4). -/

theorem clamp01_of_mem (x : ℚ) (h0 : 0 ≤ x) (h1 : x ≤ 1) : clamp01 x = x := by
  unfold clamp01
  rw [min_eq_right h1, max_eq_right h0]

theorem clamp01_of_nonpos (x : ℚ) (h : x ≤ 0) : clamp01 x = 0 := by
  unfold clamp01
  rw [min_eq_right (le_trans h (by norm_num)), max_eq_left h]

/-- C4: for a window `start ≤ end ≤ total` (`total ≥ 1`) and a global
fraction `g ∈ [0,1]` with `start ≤ g·total ≤ end`, converting to a
window-local fraction (as the post-load restore does) and back (as the
scroll handler does) lands within `2/total` of `g` — including at the
window edges, where the clamping error stays within the bound. -/
theorem window_fraction_roundtrip (startB stopB total : ℕ) (g : ℚ)
    (hse : startB ≤ stopB) (het : stopB ≤ total) (ht : 1 ≤ total)
    (hg0 : 0 ≤ g) (hg1 : g ≤ 1)
    (hlo : (startB : ℚ) ≤ g * total) (hhi : g * total ≤ (stopB : ℚ)) :
    |translateScrollToGlobal startB stopB total
        (translateGlobalToWindowLocal startB stopB total g) - g| ≤ 2 / total := by
  have hT1 : (1 : ℚ) ≤ (total : ℚ) := by exact_mod_cast ht
  have hT0 : (0 : ℚ) < (total : ℚ) := lt_of_lt_of_le one_pos hT1
  have hTne : (total : ℚ) ≠ 0 := ne_of_gt hT0
  have hSE : (startB : ℚ) ≤ (stopB : ℚ) := by exact_mod_cast hse
  have hET : (stopB : ℚ) ≤ (total : ℚ) := by exact_mod_cast het
  have hS0 : (0 : ℚ) ≤ (startB : ℚ) := by positivity
  set F : ℤ := ⌊g * ((total : ℚ) - 1)⌋ with hF
  have hx0 : (0 : ℚ) ≤ g * ((total : ℚ) - 1) := mul_nonneg hg0 (by linarith)
  have hxle : g * ((total : ℚ) - 1) ≤ (total : ℚ) - 1 :=
    mul_le_of_le_one_left (by linarith) hg1
  have hxeq : g * ((total : ℚ) - 1) = g * (total : ℚ) - g := by ring
  have hf0 : 0 ≤ F := Int.floor_nonneg.mpr hx0
  have hfle : F ≤ (total : ℤ) - 1 := by
    have h1 : g * ((total : ℚ) - 1) ≤ (((total : ℤ) - 1 : ℤ) : ℚ) := by push_cast; linarith
    have h2 := Int.floor_le_floor h1
    rwa [Int.floor_intCast] at h2
  have hfx : (F : ℚ) ≤ g * ((total : ℚ) - 1) := Int.floor_le _
  have hfx1 : g * ((total : ℚ) - 1) < (F : ℚ) + 1 := Int.lt_floor_add_one _
  have hfge : (startB : ℤ) - 1 ≤ F := by
    have h1 : ((startB : ℤ) - 2 : ℤ) < F := by
      have h2 : (((startB : ℤ) - 2 : ℤ) : ℚ) < (F : ℚ) := by push_cast; linarith
      exact_mod_cast h2
    omega
  have hfleE : F ≤ (stopB : ℤ) := by
    have h1 : (F : ℚ) ≤ (stopB : ℚ) := by linarith
    exact_mod_cast h1
  have hlocal : translateGlobalToWindowLocal startB stopB total g =
      clamp01 (((F : ℚ) - (startB : ℚ)) / max 1 ((stopB : ℚ) - (startB : ℚ))) := by
    simp only [translateGlobalToWindowLocal]
    rw [min_eq_right hfle, max_eq_right hf0]
  rcases eq_or_lt_of_le hse with heq | hlt
  · -- start = stop: the restore clamps the local fraction to 0 and the
    -- scroll conversion returns start/total, which equals g exactly.
    have hES : (stopB : ℚ) - (startB : ℚ) = 0 := by
      rw [← heq]; ring
    have hgeq : g * (total : ℚ) = (startB : ℚ) := by
      have h1 : g * (total : ℚ) ≤ (startB : ℚ) := by rw [heq]; exact hhi
      exact le_antisymm h1 hlo
    have hfleS : (F : ℚ) ≤ (startB : ℚ) := by
      have h1 : (F : ℚ) ≤ (stopB : ℚ) := by exact_mod_cast hfleE
      linarith
    have hspan : max 1 ((stopB : ℚ) - (startB : ℚ)) = 1 := by
      rw [hES]; norm_num
    have hloc0 : translateGlobalToWindowLocal startB stopB total g = 0 := by
      rw [hlocal, hspan, div_one]
      exact clamp01_of_nonpos _ (by linarith)
    rw [hloc0]
    simp only [translateScrollToGlobal]
    rw [zero_mul, add_zero]
    have hclamp : clamp01 ((startB : ℚ) / (total : ℚ)) = (startB : ℚ) / (total : ℚ) :=
      clamp01_of_mem _ (div_nonneg hS0 (le_of_lt hT0))
        ((div_le_one hT0).mpr (le_trans hSE hET))
    rw [hclamp]
    have hgval : (startB : ℚ) / (total : ℚ) = g := by
      rw [← hgeq]
      exact mul_div_cancel_right₀ g hTne
    rw [hgval, sub_self, abs_zero]
    positivity
  · -- start < stop
    have hE1 : (1 : ℚ) ≤ (stopB : ℚ) - (startB : ℚ) := by
      have h1 : startB + 1 ≤ stopB := hlt
      have h2 : ((startB : ℚ) + 1 : ℚ) ≤ (stopB : ℚ) := by exact_mod_cast h1
      linarith
    have hspan : max 1 ((stopB : ℚ) - (startB : ℚ)) = (stopB : ℚ) - (startB : ℚ) :=
      max_eq_right hE1
    have hspan0 : (0 : ℚ) < (stopB : ℚ) - (startB : ℚ) := by linarith
    have hspanne : (stopB : ℚ) - (startB : ℚ) ≠ 0 := ne_of_gt hspan0
    by_cases hfS : (startB : ℤ) ≤ F
    · -- the restored target byte lies inside the window: the round
      -- trip returns exactly floor(g*(total-1))/total.
      have hfSQ : (startB : ℚ) ≤ (F : ℚ) := by exact_mod_cast hfS
      have hfEQ : (F : ℚ) ≤ (stopB : ℚ) := by exact_mod_cast hfleE
      have hv0 : 0 ≤ ((F : ℚ) - (startB : ℚ)) / ((stopB : ℚ) - (startB : ℚ)) :=
        div_nonneg (by linarith) (le_of_lt hspan0)
      have hv1 : ((F : ℚ) - (startB : ℚ)) / ((stopB : ℚ) - (startB : ℚ)) ≤ 1 :=
        (div_le_one hspan0).mpr (by linarith)
      have hloc : translateGlobalToWindowLocal startB stopB total g =
          ((F : ℚ) - (startB : ℚ)) / ((stopB : ℚ) - (startB : ℚ)) := by
        rw [hlocal, hspan]
        exact clamp01_of_mem _ hv0 hv1
      rw [hloc]
      simp only [translateScrollToGlobal]
      rw [div_mul_cancel₀ _ hspanne]
      have hbyte : (startB : ℚ) + ((F : ℚ) - (startB : ℚ)) = (F : ℚ) := by ring
      rw [hbyte]
      have hfT : (F : ℚ) ≤ (total : ℚ) := by
        have h1 : (F : ℚ) ≤ (((total : ℤ) - 1 : ℤ) : ℚ) := by exact_mod_cast hfle
        push_cast at h1
        linarith
      have hclamp : clamp01 ((F : ℚ) / (total : ℚ)) = (F : ℚ) / (total : ℚ) :=
        clamp01_of_mem _ (div_nonneg (by exact_mod_cast hf0) (le_of_lt hT0))
          ((div_le_one hT0).mpr hfT)
      rw [hclamp]
      have hdiff : (F : ℚ) / (total : ℚ) - g = ((F : ℚ) - g * (total : ℚ)) / (total : ℚ) := by
        rw [sub_div, mul_div_cancel_right₀ _ hTne]
      rw [hdiff, abs_div, abs_of_pos hT0]
      apply (div_le_div_iff_of_pos_right hT0).mpr
      rw [abs_le]
      constructor <;> linarith
    · -- the restored target byte falls one byte left of the window:
      -- the local fraction clamps to 0 and the round trip returns
      -- start/total, still within 1/total of g.
      have hfeq : F = (startB : ℤ) - 1 := by omega
      have hfQ : (F : ℚ) = (startB : ℚ) - 1 := by
        rw [hfeq]; push_cast; ring
      have hvneg : ((F : ℚ) - (startB : ℚ)) / ((stopB : ℚ) - (startB : ℚ)) ≤ 0 := by
        apply div_nonpos_of_nonpos_of_nonneg
        · rw [hfQ]; linarith
        · linarith
      have hloc : translateGlobalToWindowLocal startB stopB total g = 0 := by
        rw [hlocal, hspan]
        exact clamp01_of_nonpos _ hvneg
      rw [hloc]
      simp only [translateScrollToGlobal]
      rw [zero_mul, add_zero]
      have hclamp : clamp01 ((startB : ℚ) / (total : ℚ)) = (startB : ℚ) / (total : ℚ) :=
        clamp01_of_mem _ (div_nonneg hS0 (le_of_lt hT0))
          ((div_le_one hT0).mpr (le_trans hSE hET))
      rw [hclamp]
      have hdiff : (startB : ℚ) / (total : ℚ) - g =
          ((startB : ℚ) - g * (total : ℚ)) / (total : ℚ) := by
        rw [sub_div, mul_div_cancel_right₀ _ hTne]
      rw [hdiff, abs_div, abs_of_pos hT0]
      apply (div_le_div_iff_of_pos_right hT0).mpr
      rw [abs_le]
      constructor <;> linarith

/-- Witness for C4: window [100, 200] of a 1000-byte document with
g = 0.15 (byte 150). -/
theorem window_fraction_roundtrip_witness :
    ((100 : ℚ) ≤ (3 / 20 : ℚ) * 1000 ∧ (3 / 20 : ℚ) * 1000 ≤ (200 : ℚ)) ∧
    |translateScrollToGlobal 100 200 1000
        (translateGlobalToWindowLocal 100 200 1000 (3 / 20)) - 3 / 20| ≤ 2 / 1000 :=
  ⟨⟨by norm_num, by norm_num⟩,
    window_fraction_roundtrip 100 200 1000 (3 / 20) (by norm_num) (by norm_num)
      (by norm_num) (by norm_num) (by norm_num) (by norm_num) (by norm_num)⟩

end MyClude
